import Mathlib

/-!
Verification of the braiins test-runner scripts and the feeds-index package
parser against their natural-language specification.

Shallow embedding, translated from the Python sources:
  * `open/bosminer/bosminer/scripts/runner.py` — `is_test_harness`
  * `open/bosminer/scripts/runner.py`          — `main` (deploy / run / teardown)
  * `braiins-os/builder/packages.py`           — `Package`, `Packages._get_package_record`

Python strings are modelled as Lean `String` (or `List Char` where character
level recursion is needed); Python `None` as `Option.none`; falsiness of
strings (`None` or `""`) is modelled explicitly.  Process exit codes are `Nat`.
-/

/-! ### Python-style string helpers -/

/-- Python truthiness of an optional string: `None` and `""` are falsy. -/
def pyTruthy : Option String → Bool
  | none => false
  | some s => !(s == "")

/-- Python `a or b` on optional strings: keep `a` when truthy, else `b`. -/
def pyOrOpt : Option String → Option String → Option String
  | some s, b => if s = "" then b else some s
  | none, b => b

/-- Approximation of Python `str.isspace()` on a single character
(ASCII whitespace; the index files and paths involved are ASCII). -/
def pyIsSpace (c : Char) : Bool :=
  c = ' ' || c = '\t' || c = '\n' || c = '\r' || c = Char.ofNat 11 || c = Char.ofNat 12

/-- Python `str.rstrip()`: drop trailing whitespace characters. -/
def pyRstrip (l : List Char) : List Char :=
  (l.reverse.dropWhile pyIsSpace).reverse

/-- Python `os.path.basename`: the part of the path after the last `/`. -/
def basename (s : String) : String :=
  String.mk ((s.data.reverse.takeWhile (fun c => c != '/')).reverse)

/-- Python `os.path.join a b` (posix): `b` if absolute, else `a` ++ separator ++ `b`. -/
def pathJoin (a b : String) : String :=
  if b.data.head? = some '/' then b
  else if a = "" then b
  else if a.data.getLast? = some '/' then a ++ b
  else a ++ "/" ++ b

/-- Python `' '.join` of a list of strings. -/
def joinSpace : List String → String
  | [] => ""
  | [s] => s
  | s :: t :: rest => s ++ " " ++ joinSpace (t :: rest)

/-- The character `\x7b` (opening curly brace). -/
def obrace : Char := Char.ofNat 123

/-- The character `\x7d` (closing curly brace). -/
def cbrace : Char := Char.ofNat 125

/-- Whether the two-character placeholder `\x7b\x7d` occurs in the list
(Python `'\x7b\x7d' in s`). -/
def containsBraces : List Char → Bool
  | [] => false
  | [_] => false
  | a :: b :: rest => (a = obrace && b = cbrace) || containsBraces (b :: rest)

/-- Python `s.replace('\x7b\x7d', rep)`: replace every (leftmost,
non-overlapping) occurrence of the placeholder. -/
def replaceBraces (rep : List Char) : List Char → List Char
  | [] => []
  | [a] => [a]
  | a :: b :: rest =>
    if a = obrace && b = cbrace then rep ++ replaceBraces rep rest
    else a :: replaceBraces rep (b :: rest)

/-! ### `is_test_harness` (open/bosminer/bosminer/scripts/runner.py, lines 44-47)

    def is_test_harness(path):
        # each test ends with 16 chars long hexadecimal number
        suffix = (path.rsplit('-', 1) + [None])[0:2][1]
        return suffix and len(suffix) == 16 and set(suffix).issubset(string.hexdigits)

`path.rsplit('-', 1)` yields `[before, after]` split at the last `-`, or
`[path]` when there is no `-`; the `+ [None])[0:2][1]` dance selects the part
after the last `-`, or `None`.  The Python function returns a truthy value
iff that suffix exists, is 16 characters long, and is all hex digits.  -/

/-- The segment after the last `-` of the list, or `none` when no `-` occurs
(the `suffix` of `is_test_harness`). -/
def afterLastDash : List Char → Option (List Char)
  | [] => none
  | c :: rest =>
    match afterLastDash rest with
    | some suf => some suf
    | none => if c = '-' then some rest else none

/-- Membership in Python's `string.hexdigits` (`0123456789abcdefABCDEF`). -/
def isHexDigitPy (c : Char) : Bool :=
  "0123456789abcdefABCDEF".data.contains c

/-- The classifier `is_test_harness`, returning the truthiness of the Python return value. -/
def is_test_harness (path : String) : Bool :=
  match afterLastDash path.data with
  | none => false
  | some suffix => !suffix.isEmpty && suffix.length == 16 && suffix.all isHexDigitPy

/-! ### Package records (braiins-os/builder/packages.py)

Attribute maps are Python `OrderedDict`s: insertion-ordered association
lists; assignment overwrites in place, otherwise appends.  Values are
`Option String` (`none` models Python `None`). -/

/-- Insertion-ordered attribute map of a package record. -/
abbrev Attrs := List (String × Option String)

/-- Python `OrderedDict` assignment `m[k] = v`: overwrite in place or append. -/
def odSet : Attrs → String → Option String → Attrs
  | [], k, v => [(k, v)]
  | (k0, v0) :: rest, k, v =>
    if k0 = k then (k0, v) :: rest else (k0, v0) :: odSet rest k v

/-- Key membership `k in m` for the ordered attribute map. -/
def odMem : Attrs → String → Bool
  | [], _ => false
  | (k0, _) :: rest, k => k0 == k || odMem rest k

/-- Lookup `m.get(k)`: `none` when the key is absent, else the stored value. -/
def odGet : Attrs → String → Option (Option String)
  | [], _ => none
  | (k0, v0) :: rest, k => if k0 = k then some v0 else odGet rest k

/-- A parsed package record (`class Package`): a wrapper around its
attribute map. -/
structure Package where
  attributes : Attrs
deriving DecidableEq

/-- Property `Package.name`: `self._attributes.get('Package')`; Python `.get` returns
`None` both for an absent key and a stored `None`. -/
def Package.name (p : Package) : Option String :=
  (odGet p.attributes "Package").join

/-- Property `Package.version`: `self._attributes.get('Version')`. -/
def Package.version (p : Package) : Option String :=
  (odGet p.attributes "Version").join

/-- Property `Package.filename`: `self._attributes.get('Filename')`. -/
def Package.filename (p : Package) : Option String :=
  (odGet p.attributes "Filename").join

/-- Property `Package.require`: `self._attributes.get('Require')`. -/
def Package.require (p : Package) : Option String :=
  (odGet p.attributes "Require").join

/-- Equality `Package.__eq__` between two `Package` values:
`self.name == other.name and self.version == other.version`. -/
def Package.eqPy (p q : Package) : Bool :=
  p.name == q.name && p.version == q.version

/-- The pair `(self.name, self.version)` that `Package.__hash__` feeds to
Python's `hash`; the hash value is a function of exactly this pair. -/
def Package.hashPair (p : Package) : Option String × Option String :=
  (p.name, p.version)

/-! #### `Packages._get_package_record` (lines 105-137)

The record loop reads lines until an empty line / a line starting with a
newline; a line whose first character is not whitespace starts a new
attribute `name: value`; other lines continue the previous value.  The
pending `(attribute, value)` pair is flushed when a new attribute starts and
once more after the loop; the `Require` key is force-inserted (value `None`)
after a flushed `Version` with no truthy `Require`, and unconditionally at
the end when still absent.  A header line without the `': '` separator makes
`line.split(': ', 1)` raise `ValueError`: modelled as `none`. -/

/-- Split a line at the first occurrence of `': '`
(Python `line.split(': ', 1)`); `none` when the separator is absent,
which in the source raises `ValueError` at the tuple unpacking. -/
def splitColonSpace : List Char → Option (List Char × List Char)
  | [] => none
  | [_] => none
  | a :: b :: rest =>
    if a = ':' && b = ' ' then some ([], rest)
    else
      match splitColonSpace (b :: rest) with
      | some (l, r) => some (a :: l, r)
      | none => none

/-- Value continuation formatting (line 131): Python formats `None` as
the string `None`. -/
def pyFormatOpt : Option String → String
  | none => "None"
  | some s => s

/-- Truthiness of `attributes.get('Require')`: falsy when the key is absent,
stores `None`, or stores the empty string. -/
def pyFalsyGet (m : Attrs) (k : String) : Bool :=
  match odGet m k with
  | none => true
  | some none => true
  | some (some s) => s == ""

/-- Flush the pending attribute into the map (lines 132-134: guarded by the
truthiness of `attribute`). -/
def storePlain (attrs : Attrs) (attr val : Option String) : Attrs :=
  match attr with
  | none => attrs
  | some an => if an = "" then attrs else odSet attrs an val

/-- Flush the pending attribute inside the loop (lines 120-124): same as
`storePlain`, plus the forced `Require = None` after a `Version`
attribute when `Require` is not truthy. -/
def storePendingMid (attrs : Attrs) (attr val : Option String) : Attrs :=
  match attr with
  | none => attrs
  | some an =>
    if an = "" then attrs
    else
      let a2 := odSet attrs an val
      if an = "Version" && pyFalsyGet a2 "Require" then odSet a2 "Require" none
      else a2

/-- End of record (lines 132-136): flush the pending attribute, then insert
`Require = None` when the key is still absent. -/
def recordFinish (attrs : Attrs) (attr val : Option String) : Attrs :=
  let a2 := storePlain attrs attr val
  if odMem a2 "Require" then a2 else odSet a2 "Require" none

/-- The `for line in stream` loop of `_get_package_record`, carrying the
attribute map and the pending `(attribute, value)` pair; `none` models the
`ValueError` from a header line without `': '`. -/
def recordLoop : List (List Char) → Attrs → Option String → Option String → Option Attrs
  | [], attrs, attr, val => some (recordFinish attrs attr val)
  | line :: rest, attrs, attr, val =>
    match line with
    | [] => some (recordFinish attrs attr val)
    | c :: _ =>
      if c = '\n' then some (recordFinish attrs attr val)
      else if pyIsSpace c then
        recordLoop rest attrs attr
          (some (pyFormatOpt val ++ "\n" ++ String.mk (pyRstrip line)))
      else
        match splitColonSpace line with
        | none => none
        | some (k, v) =>
          recordLoop rest (storePendingMid attrs attr val)
            (some (String.mk k)) (some (String.mk (pyRstrip v)))

/-- Method `Packages._get_package_record`: parse one record from its lines. -/
def get_package_record (lines : List (List Char)) : Option Package :=
  (recordLoop lines [] none none).map Package.mk

/-! ### The runner session (open/bosminer/scripts/runner.py, `main`)

The orchestrator is modelled as a pure function from the parsed command-line
arguments, the configuration-file defaults, the pass-through arguments, and
an environment assigning an exit code to each subprocess the script may
spawn, to the ordered trace of issued commands together with the way the
process terminates.  File-system side effects (`shutil.copy`, `gzip`'s
effect on disk, `os.path.getsize`) and the ssh/scp transport flags
(`-o StrictHostKeyChecking=no`, `-q`, `-C`, `-t`) are not observable by any
claim and are elided; each `Step` records the call site, the remote target
and the exact command composed by the source. -/

/-- The parsed command-line arguments of `runner.py` (argparse: an option
not supplied is `none`; `store_true` flags default to `false`;
`--path` defaults to `/tmp`). -/
structure Args where
  test : String
  applyCmd : Option String
  compress : Bool
  hostname : Option String
  keep : Bool
  host_path : String
  user : Option String
  verbose : Bool
deriving DecidableEq

/-- The `remote` section of `Test.toml`: `none` when the file, the section
or the key is absent. -/
structure Config where
  user : Option String
  hostname : Option String
deriving DecidableEq

/-- Exit codes of the subprocesses the script may spawn, in program order
(0 means success; `subprocess.run(..., check=True)` raises
`CalledProcessError` on any non-zero code). -/
structure Env where
  applyRc : Nat
  gzipRc : Nat
  lockRc : Nat
  scpRc : Nat
  gunzipRc : Nat
  execRc : Nat
  cleanRc : Nat
deriving DecidableEq

/-- One issued command, tagged by its call site in `main`. -/
inductive Step where
  /-- the `--apply` preprocess command, run through a shell (line 111) -/
  | applyStep (cmdline : String)
  /-- the local `gzip` invocation with its argument list (line 118) -/
  | gzipStep (cmdArgs : List String)
  /-- the remote mkdir-and-lock command (line 135) -/
  | lockStep (user host cmd : String)
  /-- the `scp` transfer (line 147) -/
  | scpStep (src dst : String)
  /-- the remote `gunzip` command (line 158) -/
  | gunzipStep (user host cmd : String)
  /-- the remote execution of the test (line 167) -/
  | execStep (user host cmd : String)
  /-- the teardown command in the `finally` block (line 179) -/
  | cleanStep (user host cmd : String)
deriving DecidableEq

/-- How the `runner.py` process terminates. -/
inductive MainResult where
  /-- normal exit `sys.exit(run_ret.returncode)` (line 188) -/
  | exited (code : Nat)
  /-- an uncaught `CalledProcessError`: CPython prints a traceback and the
  process exits with status 1 -/
  | raised
  /-- usage error `parser.error(...)` (line 95): argparse exits with status 2 -/
  | usageError
deriving DecidableEq

/-- The operating-system exit status of each termination mode. -/
def exitStatus : MainResult → Nat
  | .exited code => code
  | .raised => 1
  | .usageError => 2

/-- Line 91: `user = args.user or cfg_user or DEFAULT_USER`. -/
def resolveUser (a : Args) (cfg : Config) : String :=
  match pyOrOpt a.user cfg.user with
  | none => "root"
  | some s => if s = "" then "root" else s

/-- Lines 92-94: `hostname = args.hostname or cfg_hostname`, `none` when the
result is falsy (which triggers `parser.error`). -/
def resolveHostname (a : Args) (cfg : Config) : Option String :=
  match pyOrOpt a.hostname cfg.hostname with
  | none => none
  | some s => if s = "" then none else some s

/-- Line 102: `re.match('.+-[0-9a-f]{16}$', args.test)`.  `.` does not match
a newline and `$` also matches just before a trailing newline, so the regex
matches iff the string (or the string less one trailing newline) ends in a
`-` followed by sixteen lowercase hex digits, with a nonempty newline-free
part before the `-`. -/
def isLowerHexDigit (c : Char) : Bool :=
  "0123456789abcdef".data.contains c

/-- The anchored tail pattern of the cargo-test regex on an exact end of
string. -/
def cargoTail (l : List Char) : Bool :=
  let n := l.length
  decide (18 ≤ n) && (l.drop (n - 16)).all isLowerHexDigit
    && ((l.take (n - 16)).getLast? == some '-')
    && (l.take (n - 17)).all (fun c => c != '\n')

/-- The regex test `re.match('.+-[0-9a-f]{16}$', s)` as a Boolean. -/
def reMatchCargoTest (l : List Char) : Bool :=
  cargoTail l || ((l.getLast? == some '\n') && cargoTail l.dropLast)

/-- Line 140: the remote mkdir-and-lock command string. -/
def lockCmdStr (host_path : String) : String :=
  "mkdir -p " ++ host_path ++ " && lock /tmp/testrunner"

/-- Line 184: the teardown command string:
`('rm -f ' + remote_test + ' ; ' if not args.keep else '') + 'lock -u /tmp/testrunner'`. -/
def cleanCmdStr (keep : Bool) (remote_test : String) : String :=
  (if keep then "" else "rm -f " ++ remote_test ++ " ; ") ++ "lock -u /tmp/testrunner"

/-- The fixed lock-release command (the unconditional tail of the teardown
command). -/
def unlockCmd : String := "lock -u /tmp/testrunner"

/-- Line 173: the remote execution command string. -/
def execCmdStr (remote_test : String) (argv : List String) : String :=
  remote_test ++ " " ++ joinSpace argv

/-- The value `os.path.join(args.host_path, test_name)` (line 104). -/
def remoteTestOf (a : Args) : String :=
  pathJoin a.host_path (basename a.test)

/-- Lines 107-115: the `--apply` preprocessing phase.  Returns the issued
steps, the resulting `test_path` (`shutil.copy(args.test, '/tmp')` returns
`os.path.join('/tmp', basename(args.test))`), and whether the checked
command failed (raising `CalledProcessError`). -/
def applyPhase (a : Args) (env : Env) : List Step × String × Bool :=
  match a.applyCmd with
  | none => ([], a.test, false)
  | some s =>
    if s = "" then ([], a.test, false)
    else
      let tp := pathJoin "/tmp" (basename a.test)
      let cmd := if containsBraces s.data then String.mk (replaceBraces tp.data s.data)
                 else s ++ " " ++ tp
      ([Step.applyStep cmd], tp, env.applyRc != 0)

/-- Lines 144-175: the `try` body — transfer, optional remote decompression,
remote execution.  Returns the issued steps and `some returncode` when the
execution step ran (it uses `check=False` and never raises), or `none` when
an earlier checked step raised. -/
def tryBody (a : Args) (user host test_path remote_test suffix : String)
    (remote_argv : List String) (env : Env) : List Step × Option Nat :=
  let s1 := Step.scpStep (test_path ++ suffix)
    (user ++ "@" ++ host ++ ":" ++ a.host_path)
  if env.scpRc != 0 then ([s1], none)
  else if a.compress then
    let s2 := Step.gunzipStep user host ("gunzip " ++ remote_test ++ suffix)
    if env.gunzipRc != 0 then ([s1, s2], none)
    else ([s1, s2, Step.execStep user host (execCmdStr remote_test remote_argv)],
          some env.execRc)
  else ([s1, Step.execStep user host (execCmdStr remote_test remote_argv)],
        some env.execRc)

/-- Line 117-123 as observed in the trace: the `gzip --keep --force test_path`
invocation, issued only when `--compress` is set. -/
def gzSteps (a : Args) (env : Env) : List Step :=
  if a.compress then
    [Step.gzipStep ["gzip", "--keep", "--force", (applyPhase a env).2.1]]
  else []

/-- Line 124-126: the compression suffix appended for transfer and remote
decompression. -/
def suffixOf (a : Args) : String :=
  if a.compress then ".gz" else ""

/-- Lines 102-103: harness-forced flags followed by the pass-through
arguments. -/
def remoteArgvOf (a : Args) (extra : List String) : List String :=
  (if reMatchCargoTest a.test.data then ["--test-threads", "1"] else []) ++ extra

/-- Lines 135-142: the mkdir-and-lock step. -/
def lockStepOf (a : Args) (cfg : Config) (host : String) : Step :=
  Step.lockStep (resolveUser a cfg) host (lockCmdStr a.host_path)

/-- Lines 179-186: the teardown step issued in the `finally` block. -/
def cleanStepOf (a : Args) (cfg : Config) (host : String) : Step :=
  Step.cleanStep (resolveUser a cfg) host (cleanCmdStr a.keep (remoteTestOf a))

/-- The `try` body of `main`, with its arguments resolved as in lines
98-104: `test_path` from the preprocessing phase, `remote_test` from
`os.path.join`, the suffix and argument vector as above. -/
def tryBodyOf (a : Args) (cfg : Config) (host : String) (extra : List String)
    (env : Env) : List Step × Option Nat :=
  tryBody a (resolveUser a cfg) host (applyPhase a env).2.1 (remoteTestOf a)
    (suffixOf a) (remoteArgvOf a extra) env

/-- Lines 177-188: how the process ends once the `try`/`finally` ran.  The
teardown command uses `check=True`: when it fails the `CalledProcessError`
escapes (replacing any pending exception); when it succeeds, a pending
exception from the body resumes; only otherwise is
`sys.exit(run_ret.returncode)` reached. -/
def mainRes (env : Env) (captured : Option Nat) : MainResult :=
  if env.cleanRc != 0 then MainResult.raised
  else
    match captured with
    | none => MainResult.raised
    | some rc => MainResult.exited rc

/-- The `main` function of `open/bosminer/scripts/runner.py` (lines 50-188,
named `runnerMain` here because Lean reserves `main`): resolve the remote
settings (`parser.error` when the hostname is missing), run the `--apply`
preprocessing (a failure raises before any network contact), optionally
compress, issue the mkdir-and-lock command with `check=True` (a failure
raises before the `try` is entered), then transfer / decompress / execute
under a `try` whose `finally` issues the teardown command. -/
def runnerMain (a : Args) (cfg : Config) (extra : List String) (env : Env) :
    List Step × MainResult :=
  match resolveHostname a cfg with
  | none => ([], MainResult.usageError)
  | some host =>
    let ap := applyPhase a env
    if ap.2.2 then (ap.1, MainResult.raised)
    else if env.lockRc != 0 then
      (ap.1 ++ gzSteps a env ++ [lockStepOf a cfg host], MainResult.raised)
    else
      let tb := tryBodyOf a cfg host extra env
      (ap.1 ++ gzSteps a env ++ [lockStepOf a cfg host] ++ tb.1 ++ [cleanStepOf a cfg host],
       mainRes env tb.2)

/-! ### Step classifiers -/

/-- Whether the step is the teardown (lock-release) command. -/
def isCleanStep : Step → Bool
  | .cleanStep _ _ _ => true
  | _ => false

/-- Whether the step is the mkdir-and-lock acquisition command. -/
def isLockStep : Step → Bool
  | .lockStep _ _ _ => true
  | _ => false

/-- Whether the step is the remote execution command. -/
def isExecStep : Step → Bool
  | .execStep _ _ _ => true
  | _ => false

/-- Whether the step is the local preprocess command. -/
def isApplyStep : Step → Bool
  | .applyStep _ => true
  | _ => false

/-- Whether the step is the local gzip invocation. -/
def isGzipStep : Step → Bool
  | .gzipStep _ => true
  | _ => false

/-- Whether the step is the scp transfer. -/
def isScpStep : Step → Bool
  | .scpStep _ _ => true
  | _ => false

/-- Whether the step is the remote gunzip command. -/
def isGunzipStep : Step → Bool
  | .gunzipStep _ _ _ => true
  | _ => false

/-- Whether the step contacts the remote device (or the network at all):
everything except the local preprocess command and the local gzip. -/
def isRemoteStep : Step → Bool
  | .applyStep _ => false
  | .gzipStep _ => false
  | _ => true

/-- Whether a lock-acquisition step occurs in the trace. -/
def hasLockStep (l : List Step) : Bool := l.any isLockStep

/-- Whether an execution step occurs in the trace. -/
def hasExecStep (l : List Step) : Bool := l.any isExecStep

/-- Whether a preprocess step occurs in the trace. -/
def hasApplyStep (l : List Step) : Bool := l.any isApplyStep

/-! ### Lemmas about the ordered attribute map -/

/-- After an assignment the key is present. -/
theorem odMem_odSet_self (m : Attrs) (k : String) (v : Option String) :
    odMem (odSet m k v) k = true := by
  induction m with
  | nil => simp [odSet, odMem]
  | cons kv rest ih =>
    obtain ⟨k0, v0⟩ := kv
    by_cases h : k0 = k
    · simp [odSet, odMem, h]
    · simp [odSet, odMem, h, ih]

/-- The end-of-record step always leaves the `Require` key present. -/
theorem odMem_recordFinish (attrs : Attrs) (attr val : Option String) :
    odMem (recordFinish attrs attr val) "Require" = true := by
  unfold recordFinish
  by_cases h : odMem (storePlain attrs attr val) "Require" = true
  · simp [h]
  · simp [h, odMem_odSet_self]

/-- Every successful run of the record loop yields a map with the `Require`
key present. -/
theorem recordLoop_require (lines : List (List Char)) :
    ∀ attrs attr val r, recordLoop lines attrs attr val = some r →
      odMem r "Require" = true := by
  induction lines with
  | nil =>
    intro attrs attr val r h
    simp only [recordLoop, Option.some.injEq] at h
    exact h ▸ odMem_recordFinish attrs attr val
  | cons line rest ih =>
    intro attrs attr val r h
    match line with
    | [] =>
      simp only [recordLoop, Option.some.injEq] at h
      exact h ▸ odMem_recordFinish attrs attr val
    | c :: cs =>
      simp only [recordLoop] at h
      split at h
      · exact (Option.some.inj h) ▸ odMem_recordFinish attrs attr val
      · split at h
        · exact ih _ _ _ _ h
        · split at h
          · simp at h
          · exact ih _ _ _ _ h

/-! ### Claim theorems for the package parser -/

/-- C9: every `Package` produced by the feeds-index parser
(`_get_package_record`) has the `Require` attribute present in its
attribute map (its value possibly `None`), so `package.require` is defined
even for records whose source text contains no `Require` line. -/
theorem require_always_present (lines : List (List Char)) (pkg : Package)
    (h : get_package_record lines = some pkg) :
    odMem pkg.attributes "Require" = true := by
  unfold get_package_record at h
  cases hr : recordLoop lines [] none none with
  | none => simp [hr] at h
  | some r =>
    simp only [hr, Option.map_some', Option.some.injEq] at h
    have := recordLoop_require lines [] none none r hr
    simpa [← h] using this

/-- Witness for C9: a record with no `Require` line still carries the key. -/
theorem require_always_present_witness :
    odMem (Package.attributes ⟨[("Package", some "foo"), ("Require", none)]⟩)
      "Require" = true :=
  require_always_present ["Package: foo\n".data]
    ⟨[("Package", some "foo"), ("Require", none)]⟩ (by decide)

/-- C10: `Package.__eq__` holds iff the names and versions agree (all other
attributes, including the filename, are ignored), and equal packages have
equal hash inputs, the hash being computed from exactly the
`(name, version)` pair. -/
theorem package_eq_iff_name_version (p q : Package) :
    (Package.eqPy p q = true ↔ p.name = q.name ∧ p.version = q.version) ∧
    (Package.eqPy p q = true → p.hashPair = q.hashPair) := by
  constructor
  · simp [Package.eqPy]
  · intro h
    simp only [Package.eqPy, Bool.and_eq_true, beq_iff_eq] at h
    simp [Package.hashPair, h.1, h.2]

/-- Witness for C10: two packages differing only in filename are equal and
have equal hash inputs. -/
theorem package_eq_iff_name_version_witness :
    Package.eqPy ⟨[("Package", some "x"), ("Version", some "1"), ("Filename", some "a")]⟩
      ⟨[("Package", some "x"), ("Version", some "1"), ("Filename", some "b")]⟩ = true ∧
    Package.hashPair ⟨[("Package", some "x"), ("Version", some "1"), ("Filename", some "a")]⟩ =
      Package.hashPair ⟨[("Package", some "x"), ("Version", some "1"), ("Filename", some "b")]⟩ := by
  refine ⟨?_, ?_⟩
  · exact (package_eq_iff_name_version _ _).1.mpr (by decide)
  · exact (package_eq_iff_name_version _ _).2 (by decide)

/-! ### Lemmas about `afterLastDash` -/

/-- The helper `afterLastDash` yields `none` exactly when the list has no dash. -/
theorem afterLastDash_eq_none_iff (l : List Char) :
    afterLastDash l = none ↔ '-' ∉ l := by
  induction l with
  | nil => simp [afterLastDash]
  | cons c rest ih =>
    simp only [afterLastDash]
    cases h : afterLastDash rest with
    | some suf =>
      have : '-' ∈ rest := by
        by_contra hmem
        rw [← ih] at hmem
        simp [h] at hmem
      simp [this]
    | none =>
      have hrest : '-' ∉ rest := ih.mp h
      by_cases hc : c = '-'
      · simp [hc]
      · simp [hc, hrest, Ne.symm hc]

/-- Completeness: the segment after the last dash is found. -/
theorem afterLastDash_append (a b : List Char) (hb : '-' ∉ b) :
    afterLastDash (a ++ '-' :: b) = some b := by
  induction a with
  | nil =>
    have h0 : afterLastDash b = none := (afterLastDash_eq_none_iff b).mpr hb
    simp [afterLastDash, h0]
  | cons c a2 ih =>
    simp [afterLastDash, ih]

/-- Soundness: a found segment is the part after the last dash. -/
theorem afterLastDash_sound (l : List Char) :
    ∀ b, afterLastDash l = some b → ∃ a, l = a ++ '-' :: b ∧ '-' ∉ b := by
  induction l with
  | nil => intro b h; simp [afterLastDash] at h
  | cons c rest ih =>
    intro b h
    simp only [afterLastDash] at h
    split at h
    next suf heq =>
      obtain rfl := Option.some.inj h
      obtain ⟨a, ha, hnd⟩ := ih suf heq
      exact ⟨c :: a, by simp [ha], hnd⟩
    next heq =>
      split at h
      next hc =>
        obtain rfl := Option.some.inj h
        exact ⟨[], by simp [hc], (afterLastDash_eq_none_iff _).mp heq⟩
      next hc => simp at h

/-- C3: the test-harness classifier returns true iff the substring after
the final `-` has length exactly 16 and consists only of hexadecimal digit
characters; in particular `classify("mytest-0123456789abcdef") = true`,
`classify("mytest-123") = false` and `classify("mytest") = false`. -/
theorem classifier_iff_hex16 :
    (∀ s : String, is_test_harness s = true ↔
      ∃ a b : List Char, s.data = a ++ '-' :: b ∧ '-' ∉ b ∧
        b.length = 16 ∧ ∀ c ∈ b, isHexDigitPy c = true) ∧
    is_test_harness "mytest-0123456789abcdef" = true ∧
    is_test_harness "mytest-123" = false ∧
    is_test_harness "mytest" = false := by
  refine ⟨?_, by decide, by decide, by decide⟩
  intro s
  unfold is_test_harness
  cases h : afterLastDash s.data with
  | none =>
    simp only [Bool.false_eq_true, false_iff]
    rintro ⟨a, b, heq, hnd, -, -⟩
    rw [heq, afterLastDash_append a b hnd] at h
    exact absurd h (by simp)
  | some suf =>
    obtain ⟨a, ha, hnd⟩ := afterLastDash_sound s.data suf h
    constructor
    · intro htrue
      simp only [Bool.and_eq_true, beq_iff_eq, List.all_eq_true] at htrue
      exact ⟨a, suf, ha, hnd, htrue.1.2, htrue.2⟩
    · rintro ⟨a2, b, heq, hnd2, hlen, hhex⟩
      rw [heq, afterLastDash_append a2 b hnd2] at h
      obtain rfl : b = suf := Option.some.inj h
      have hne : b.isEmpty = false := by
        cases b with
        | nil => simp at hlen
        | cons x xs => rfl
      simpa [hne, hlen, List.all_eq_true] using hhex

/-! ### Shape lemmas for the session trace -/

/-- The preprocessing phase issues at most the one preprocess command. -/
theorem applyPhase_shape (a : Args) (env : Env) :
    (applyPhase a env).1 = [] ∨ ∃ c, (applyPhase a env).1 = [Step.applyStep c] := by
  unfold applyPhase
  cases a.applyCmd with
  | none => simp
  | some s =>
    by_cases hs : s = ""
    · simp [hs]
    · simp [hs]

/-- Every step of the preprocessing phase is the preprocess command. -/
theorem applyPhase_mem (a : Args) (env : Env) :
    ∀ s ∈ (applyPhase a env).1, ∃ c, s = Step.applyStep c := by
  intro s hs
  rcases applyPhase_shape a env with h | ⟨c, h⟩
  · rw [h] at hs; simp at hs
  · rw [h] at hs
    simp only [List.mem_singleton] at hs
    exact ⟨c, hs⟩

/-- When the preprocess phase issued its command, its failure flag is the
failure of that command. -/
theorem applyPhase_flag (a : Args) (env : Env)
    (h : (applyPhase a env).1 ≠ []) :
    (applyPhase a env).2.2 = (env.applyRc != 0) := by
  cases hc : a.applyCmd with
  | none => simp [applyPhase, hc] at h
  | some s =>
    by_cases hs : s = ""
    · simp [applyPhase, hc, hs] at h
    · simp [applyPhase, hc, hs]

/-- Every step of the gzip phase is the gzip invocation. -/
theorem gzSteps_mem (a : Args) (env : Env) :
    ∀ s ∈ gzSteps a env,
      s = Step.gzipStep ["gzip", "--keep", "--force", (applyPhase a env).2.1] := by
  intro s hs
  unfold gzSteps at hs
  by_cases hcp : a.compress = true
  · rw [if_pos hcp] at hs
    simpa using hs
  · rw [if_neg hcp] at hs; simp at hs

/-- Every step of the `try` body is the transfer, the remote decompression
or the remote execution, with the command strings composed as in the
source. -/
theorem tryBody_mem (a : Args) (u hst tp rt sfx : String) (argv : List String)
    (env : Env) :
    ∀ s ∈ (tryBody a u hst tp rt sfx argv env).1,
      s = Step.scpStep (tp ++ sfx) (u ++ "@" ++ hst ++ ":" ++ a.host_path) ∨
      s = Step.gunzipStep u hst ("gunzip " ++ rt ++ sfx) ∨
      s = Step.execStep u hst (execCmdStr rt argv) := by
  intro s hs
  unfold tryBody at hs
  split_ifs at hs <;> simp only [List.mem_singleton, List.mem_cons,
    List.not_mem_nil, or_false] at hs <;> tauto

/-- If the execution step is in the `try` body's trace, the captured code is
the execution step's exit code. -/
theorem tryBody_exec_captured (a : Args) (u hst tp rt sfx : String)
    (argv : List String) (env : Env)
    (h : hasExecStep (tryBody a u hst tp rt sfx argv env).1 = true) :
    (tryBody a u hst tp rt sfx argv env).2 = some env.execRc := by
  unfold tryBody at *
  split_ifs at h ⊢ <;> simp [hasExecStep, isExecStep] at h ⊢

/-- If the execution step is not in the `try` body's trace, nothing was
captured. -/
theorem tryBody_no_exec_captured (a : Args) (u hst tp rt sfx : String)
    (argv : List String) (env : Env)
    (h : hasExecStep (tryBody a u hst tp rt sfx argv env).1 = false) :
    (tryBody a u hst tp rt sfx argv env).2 = none := by
  unfold tryBody at *
  split_ifs at h ⊢ <;> simp [hasExecStep, isExecStep] at h ⊢

/-! ### Branch equations for `runnerMain` -/

/-- Missing hostname: `parser.error` before any command. -/
theorem runnerMain_usage (a : Args) (cfg : Config) (extra : List String)
    (env : Env) (h : resolveHostname a cfg = none) :
    runnerMain a cfg extra env = ([], MainResult.usageError) := by
  simp [runnerMain, h]

/-- Failed preprocess command: abort with only the preprocess trace. -/
theorem runnerMain_applyFail (a : Args) (cfg : Config) (extra : List String)
    (env : Env) (host : String) (h : resolveHostname a cfg = some host)
    (h2 : (applyPhase a env).2.2 = true) :
    runnerMain a cfg extra env = ((applyPhase a env).1, MainResult.raised) := by
  simp [runnerMain, h, h2]

/-- Failed lock acquisition: abort before the `try`, no teardown. -/
theorem runnerMain_lockFail (a : Args) (cfg : Config) (extra : List String)
    (env : Env) (host : String) (h : resolveHostname a cfg = some host)
    (h2 : (applyPhase a env).2.2 = false) (h3 : env.lockRc ≠ 0) :
    runnerMain a cfg extra env =
      ((applyPhase a env).1 ++ gzSteps a env ++ [lockStepOf a cfg host],
       MainResult.raised) := by
  simp [runnerMain, h, h2, h3]

/-- Lock acquired: the `try`/`finally` runs and the teardown is issued. -/
theorem runnerMain_run (a : Args) (cfg : Config) (extra : List String)
    (env : Env) (host : String) (h : resolveHostname a cfg = some host)
    (h2 : (applyPhase a env).2.2 = false) (h3 : env.lockRc = 0) :
    runnerMain a cfg extra env =
      ((applyPhase a env).1 ++ gzSteps a env ++ [lockStepOf a cfg host] ++
        (tryBodyOf a cfg host extra env).1 ++ [cleanStepOf a cfg host],
       mainRes env (tryBodyOf a cfg host extra env).2) := by
  simp [runnerMain, h, h2, h3, tryBodyOf]

/-- Lemma `tryBody_mem` specialised to the session's resolved arguments. -/
theorem tryBodyOf_mem (a : Args) (cfg : Config) (host : String)
    (extra : List String) (env : Env) :
    ∀ s ∈ (tryBodyOf a cfg host extra env).1,
      s = Step.scpStep ((applyPhase a env).2.1 ++ suffixOf a)
            (resolveUser a cfg ++ "@" ++ host ++ ":" ++ a.host_path) ∨
      s = Step.gunzipStep (resolveUser a cfg) host
            ("gunzip " ++ remoteTestOf a ++ suffixOf a) ∨
      s = Step.execStep (resolveUser a cfg) host
            (execCmdStr (remoteTestOf a) (remoteArgvOf a extra)) := by
  intro s hs
  unfold tryBodyOf at hs
  exact tryBody_mem a _ host _ _ _ _ env s hs

/-- The lock-release command is a suffix of every teardown command. -/
theorem unlock_suffix_cleanCmd (k : Bool) (rt : String) :
    unlockCmd.data <:+ (cleanCmdStr k rt).data := by
  unfold cleanCmdStr unlockCmd
  rw [String.data_append]
  exact List.suffix_append _ _

/-- C1: for every session that successfully issues the lock-acquisition
command, exactly one lock-release command is issued during teardown, even
if the transfer, remote decompression or remote execution fails: a teardown
command containing `lock -u /tmp/testrunner` runs on every exit path that
begins after lock acquisition. -/
theorem lock_released_exactly_once (a : Args) (cfg : Config)
    (extra : List String) (env : Env)
    (hlock : hasLockStep (runnerMain a cfg extra env).1 = true)
    (hok : env.lockRc = 0) :
    (runnerMain a cfg extra env).1.countP isCleanStep = 1 ∧
    ∀ s ∈ (runnerMain a cfg extra env).1, isCleanStep s = true →
      ∃ u h c, s = Step.cleanStep u h c ∧ unlockCmd.data <:+ c.data := by
  cases hh : resolveHostname a cfg with
  | none =>
    rw [runnerMain_usage a cfg extra env hh] at hlock
    simp [hasLockStep] at hlock
  | some host =>
    by_cases hap : (applyPhase a env).2.2 = true
    · rw [runnerMain_applyFail a cfg extra env host hh hap] at hlock
      exfalso
      simp only [hasLockStep, List.any_eq_true] at hlock
      obtain ⟨s, hs, hl⟩ := hlock
      obtain ⟨c, rfl⟩ := applyPhase_mem a env s hs
      simp [isLockStep] at hl
    · have heq := runnerMain_run a cfg extra env host hh (by simpa using hap) hok
      rw [heq]
      have h1 : (applyPhase a env).1.countP isCleanStep = 0 :=
        List.countP_eq_zero.mpr (fun s hs => by
          obtain ⟨c, rfl⟩ := applyPhase_mem a env s hs; simp [isCleanStep])
      have h2 : (gzSteps a env).countP isCleanStep = 0 :=
        List.countP_eq_zero.mpr (fun s hs => by
          rw [gzSteps_mem a env s hs]; simp [isCleanStep])
      have h3 : (tryBodyOf a cfg host extra env).1.countP isCleanStep = 0 :=
        List.countP_eq_zero.mpr (fun s hs => by
          rcases tryBodyOf_mem a cfg host extra env s hs with h | h | h <;>
            rw [h] <;> simp [isCleanStep])
      constructor
      · simp [List.countP_append, h1, h2, h3, List.countP_cons, lockStepOf,
          cleanStepOf, isCleanStep]
      · intro s hs hc
        simp only [List.mem_append, List.mem_singleton] at hs
        rcases hs with ((((hs | hs) | hs) | hs) | hs)
        · obtain ⟨c, rfl⟩ := applyPhase_mem a env s hs
          simp [isCleanStep] at hc
        · rw [gzSteps_mem a env s hs] at hc
          simp [isCleanStep] at hc
        · rw [hs] at hc
          simp [lockStepOf, isCleanStep] at hc
        · rcases tryBodyOf_mem a cfg host extra env s hs with h | h | h <;>
            rw [h] at hc <;> simp [isCleanStep] at hc
        · exact ⟨resolveUser a cfg, host, cleanCmdStr a.keep (remoteTestOf a),
            hs, unlock_suffix_cleanCmd a.keep (remoteTestOf a)⟩

/-- Witness for C1: a session with a failed transfer still tears down
exactly once. -/
theorem lock_released_exactly_once_witness :
    hasLockStep (runnerMain (Args.mk "job" none false (some "dev1") false "/tmp" none false)
      (Config.mk none none) [] (Env.mk 0 0 0 1 0 0 0)).1 = true ∧
    (runnerMain (Args.mk "job" none false (some "dev1") false "/tmp" none false)
      (Config.mk none none) [] (Env.mk 0 0 0 1 0 0 0)).1.countP isCleanStep = 1 :=
  ⟨by decide,
   (lock_released_exactly_once (Args.mk "job" none false (some "dev1") false "/tmp" none false)
     (Config.mk none none) [] (Env.mk 0 0 0 1 0 0 0) (by decide) rfl).1⟩

/-- C5: if the local preprocess command fails, the session aborts before
any network contact: no lock-acquisition command and no remote command of
any kind is issued, and teardown does not run. -/
theorem preprocess_fail_no_remote (a : Args) (cfg : Config)
    (extra : List String) (env : Env)
    (happ : hasApplyStep (runnerMain a cfg extra env).1 = true)
    (hrc : env.applyRc ≠ 0) :
    (runnerMain a cfg extra env).1.all (fun s => !isRemoteStep s) = true ∧
    (runnerMain a cfg extra env).2 = MainResult.raised := by
  have hflag : ∀ host, resolveHostname a cfg = some host →
      (applyPhase a env).2.2 = true := by
    intro host hh
    by_cases hap : (applyPhase a env).2.2 = true
    · exact hap
    · exfalso
      have hne : (applyPhase a env).1 ≠ [] := by
        intro hnil
        by_cases hl : env.lockRc = 0
        · rw [runnerMain_run a cfg extra env host hh (by simpa using hap) hl] at happ
          simp only [hasApplyStep, List.any_eq_true] at happ
          obtain ⟨s, hs, hsapp⟩ := happ
          simp only [List.mem_append, List.mem_singleton, hnil,
            List.not_mem_nil, false_or] at hs
          rcases hs with ((hs | hs) | hs) | hs
          · rw [gzSteps_mem a env s hs] at hsapp; simp [isApplyStep] at hsapp
          · rw [hs] at hsapp; simp [lockStepOf, isApplyStep] at hsapp
          · rcases tryBodyOf_mem a cfg host extra env s hs with h | h | h <;>
              rw [h] at hsapp <;> simp [isApplyStep] at hsapp
          · rw [hs] at hsapp; simp [cleanStepOf, isApplyStep] at hsapp
        · rw [runnerMain_lockFail a cfg extra env host hh (by simpa using hap) hl] at happ
          simp only [hasApplyStep, List.any_eq_true] at happ
          obtain ⟨s, hs, hsapp⟩ := happ
          simp only [List.mem_append, List.mem_singleton, hnil,
            List.not_mem_nil, false_or] at hs
          rcases hs with hs | hs
          · rw [gzSteps_mem a env s hs] at hsapp; simp [isApplyStep] at hsapp
          · rw [hs] at hsapp; simp [lockStepOf, isApplyStep] at hsapp
      have := applyPhase_flag a env hne
      rw [this] at hap
      exact hap (by simpa using hrc)
  cases hh : resolveHostname a cfg with
  | none =>
    rw [runnerMain_usage a cfg extra env hh] at happ
    simp [hasApplyStep] at happ
  | some host =>
    rw [runnerMain_applyFail a cfg extra env host hh (hflag host hh)]
    refine ⟨?_, rfl⟩
    rw [List.all_eq_true]
    intro s hs
    obtain ⟨c, rfl⟩ := applyPhase_mem a env s hs
    simp [isRemoteStep]

/-- Witness for C5: a failing preprocess command leaves a trace with only
the preprocess step and the session aborted. -/
theorem preprocess_fail_no_remote_witness :
    hasApplyStep (runnerMain (Args.mk "job" (some "sign") false (some "dev1") false "/tmp" none false)
      (Config.mk none none) [] (Env.mk 3 0 0 0 0 0 0)).1 = true ∧
    (runnerMain (Args.mk "job" (some "sign") false (some "dev1") false "/tmp" none false)
      (Config.mk none none) [] (Env.mk 3 0 0 0 0 0 0)).1.all (fun s => !isRemoteStep s) = true ∧
    (runnerMain (Args.mk "job" (some "sign") false (some "dev1") false "/tmp" none false)
      (Config.mk none none) [] (Env.mk 3 0 0 0 0 0 0)).2 = MainResult.raised := by
  refine ⟨by decide, ?_⟩
  have := preprocess_fail_no_remote
    (Args.mk "job" (some "sign") false (some "dev1") false "/tmp" none false)
    (Config.mk none none) [] (Env.mk 3 0 0 0 0 0 0) (by decide) (by decide)
  exact this

/-- C6: the teardown is composed as a single remote command: when
`keepRemoteFile` is false the removal of the remote artifact precedes the
lock release joined by the non-short-circuiting separator `;`, and when
`keepRemoteFile` is true the teardown command contains no removal but still
the lock release. -/
theorem teardown_composition (a : Args) (cfg : Config) (extra : List String)
    (env : Env) :
    ∀ s ∈ (runnerMain a cfg extra env).1, isCleanStep s = true →
      ∃ u h, s = Step.cleanStep u h (cleanCmdStr a.keep (remoteTestOf a)) ∧
        (a.keep = false →
          cleanCmdStr a.keep (remoteTestOf a) =
            "rm -f " ++ remoteTestOf a ++ " ; " ++ "lock -u /tmp/testrunner") ∧
        (a.keep = true →
          cleanCmdStr a.keep (remoteTestOf a) = "lock -u /tmp/testrunner") := by
  intro s hs hc
  have hkeepF : a.keep = false →
      cleanCmdStr a.keep (remoteTestOf a) =
        "rm -f " ++ remoteTestOf a ++ " ; " ++ "lock -u /tmp/testrunner" := by
    intro hk
    simp [cleanCmdStr, hk, String.append_assoc]
  have hkeepT : a.keep = true →
      cleanCmdStr a.keep (remoteTestOf a) = "lock -u /tmp/testrunner" := by
    intro hk
    apply String.ext
    simp [cleanCmdStr, hk, String.data_append]
  cases hh : resolveHostname a cfg with
  | none =>
    rw [runnerMain_usage a cfg extra env hh] at hs
    simp at hs
  | some host =>
    by_cases hap : (applyPhase a env).2.2 = true
    · rw [runnerMain_applyFail a cfg extra env host hh hap] at hs
      obtain ⟨c, rfl⟩ := applyPhase_mem a env s hs
      simp [isCleanStep] at hc
    · by_cases hl : env.lockRc = 0
      · rw [runnerMain_run a cfg extra env host hh (by simpa using hap) hl] at hs
        simp only [List.mem_append, List.mem_singleton] at hs
        rcases hs with ((((hs | hs) | hs) | hs) | hs)
        · obtain ⟨c, rfl⟩ := applyPhase_mem a env s hs
          simp [isCleanStep] at hc
        · rw [gzSteps_mem a env s hs] at hc
          simp [isCleanStep] at hc
        · rw [hs] at hc
          simp [lockStepOf, isCleanStep] at hc
        · rcases tryBodyOf_mem a cfg host extra env s hs with h | h | h <;>
            rw [h] at hc <;> simp [isCleanStep] at hc
        · exact ⟨resolveUser a cfg, host, hs, hkeepF, hkeepT⟩
      · rw [runnerMain_lockFail a cfg extra env host hh (by simpa using hap) hl] at hs
        simp only [List.mem_append, List.mem_singleton] at hs
        rcases hs with (hs | hs) | hs
        · obtain ⟨c, rfl⟩ := applyPhase_mem a env s hs
          simp [isCleanStep] at hc
        · rw [gzSteps_mem a env s hs] at hc
          simp [isCleanStep] at hc
        · rw [hs] at hc
          simp [lockStepOf, isCleanStep] at hc

/-- Witness for C6: with `--keep` the teardown command is exactly the lock
release. -/
theorem teardown_composition_witness :
    cleanCmdStr true (remoteTestOf (Args.mk "job" none false (some "dev1") true "/tmp" none false)) =
      "lock -u /tmp/testrunner" := by
  have hmem : Step.cleanStep "root" "dev1"
      (cleanCmdStr true (remoteTestOf (Args.mk "job" none false (some "dev1") true "/tmp" none false))) ∈
      (runnerMain (Args.mk "job" none false (some "dev1") true "/tmp" none false)
        (Config.mk none none) [] (Env.mk 0 0 0 0 0 0 0)).1 := by decide
  obtain ⟨u, h, -, -, ht⟩ := teardown_composition
    (Args.mk "job" none false (some "dev1") true "/tmp" none false)
    (Config.mk none none) [] (Env.mk 0 0 0 0 0 0 0) _ hmem (by decide)
  exact ht rfl

/-- A truthy first operand wins in Python `or`. -/
theorem pyOrOpt_truthy_left (s : String) (hne : s ≠ "") (b : Option String) :
    pyOrOpt (some s) b = some s := by
  simp [pyOrOpt, hne]

/-- A falsy first operand defers to the second in Python `or`. -/
theorem pyOrOpt_falsy_left (o : Option String) (ho : pyTruthy o = false)
    (b : Option String) : pyOrOpt o b = b := by
  cases o with
  | none => rfl
  | some s =>
    simp only [pyTruthy, Bool.not_eq_false', beq_iff_eq] at ho
    simp [pyOrOpt, ho]

/-- C7: the remote user is resolved as the explicit `--user` argument if
given, else the configuration file's `remote.user` if present, else the
fixed fallback `root`; the hostname as the explicit argument if given, else
the configuration file's `remote.hostname`; if both are absent the session
terminates with the configuration error before issuing any remote command
(`given`/`present` meaning truthy, as in the source's `or` chains). -/
theorem remote_settings_resolution (a : Args) (cfg : Config)
    (extra : List String) (env : Env) :
    (∀ u, a.user = some u → u ≠ "" → resolveUser a cfg = u) ∧
    (pyTruthy a.user = false →
      ∀ v, cfg.user = some v → v ≠ "" → resolveUser a cfg = v) ∧
    (pyTruthy a.user = false → pyTruthy cfg.user = false →
      resolveUser a cfg = "root") ∧
    (∀ h, a.hostname = some h → h ≠ "" → resolveHostname a cfg = some h) ∧
    (pyTruthy a.hostname = false →
      ∀ h, cfg.hostname = some h → h ≠ "" → resolveHostname a cfg = some h) ∧
    (pyTruthy a.hostname = false → pyTruthy cfg.hostname = false →
      resolveHostname a cfg = none ∧
      runnerMain a cfg extra env = ([], MainResult.usageError)) := by
  refine ⟨?_, ?_, ?_, ?_, ?_, ?_⟩
  · intro u hu hne
    rw [resolveUser, hu, pyOrOpt_truthy_left u hne]
    simp [hne]
  · intro ht v hv hne
    rw [resolveUser, pyOrOpt_falsy_left a.user ht, hv]
    simp [hne]
  · intro ht hc
    rw [resolveUser, pyOrOpt_falsy_left a.user ht]
    cases hcv : cfg.user with
    | none => rfl
    | some t =>
      rw [hcv] at hc
      simp only [pyTruthy, Bool.not_eq_false', beq_iff_eq] at hc
      simp [hc]
  · intro h hu hne
    rw [resolveHostname, hu, pyOrOpt_truthy_left h hne]
    simp [hne]
  · intro ht h hv hne
    rw [resolveHostname, pyOrOpt_falsy_left a.hostname ht, hv]
    simp [hne]
  · intro ht hc
    have hnone : resolveHostname a cfg = none := by
      rw [resolveHostname, pyOrOpt_falsy_left a.hostname ht]
      cases hcv : cfg.hostname with
      | none => rfl
      | some t =>
        rw [hcv] at hc
        simp only [pyTruthy, Bool.not_eq_false', beq_iff_eq] at hc
        simp [hc]
    exact ⟨hnone, runnerMain_usage a cfg extra env hnone⟩

/-- Witness for C7: with no explicit settings and an empty configuration,
the user falls back to `root` and a missing hostname is a configuration
error with an empty trace. -/
theorem remote_settings_resolution_witness :
    resolveUser (Args.mk "job" none false none false "/tmp" none false)
      (Config.mk none none) = "root" ∧
    runnerMain (Args.mk "job" none false none false "/tmp" none false)
      (Config.mk none none) [] (Env.mk 0 0 0 0 0 0 0) = ([], MainResult.usageError) := by
  have h := remote_settings_resolution
    (Args.mk "job" none false none false "/tmp" none false)
    (Config.mk none none) [] (Env.mk 0 0 0 0 0 0 0)
  exact ⟨h.2.2.1 (by decide) (by decide), (h.2.2.2.2.2 (by decide) (by decide)).2⟩

/-- Full classification of the steps a session can emit. -/
theorem runnerMain_mem_classify (a : Args) (cfg : Config)
    (extra : List String) (env : Env) :
    ∀ s ∈ (runnerMain a cfg extra env).1,
      (∃ c, s = Step.applyStep c) ∨
      s = Step.gzipStep ["gzip", "--keep", "--force", (applyPhase a env).2.1] ∨
      ∃ host, resolveHostname a cfg = some host ∧
        (s = lockStepOf a cfg host ∨
         s = Step.scpStep ((applyPhase a env).2.1 ++ suffixOf a)
               (resolveUser a cfg ++ "@" ++ host ++ ":" ++ a.host_path) ∨
         s = Step.gunzipStep (resolveUser a cfg) host
               ("gunzip " ++ remoteTestOf a ++ suffixOf a) ∨
         s = Step.execStep (resolveUser a cfg) host
               (execCmdStr (remoteTestOf a) (remoteArgvOf a extra)) ∨
         s = cleanStepOf a cfg host) := by
  intro s hs
  cases hh : resolveHostname a cfg with
  | none =>
    rw [runnerMain_usage a cfg extra env hh] at hs
    simp at hs
  | some host =>
    by_cases hap : (applyPhase a env).2.2 = true
    · rw [runnerMain_applyFail a cfg extra env host hh hap] at hs
      exact Or.inl (applyPhase_mem a env s hs)
    · by_cases hl : env.lockRc = 0
      · rw [runnerMain_run a cfg extra env host hh (by simpa using hap) hl] at hs
        simp only [List.mem_append, List.mem_singleton] at hs
        rcases hs with ((((hs | hs) | hs) | hs) | hs)
        · exact Or.inl (applyPhase_mem a env s hs)
        · exact Or.inr (Or.inl (gzSteps_mem a env s hs))
        · exact Or.inr (Or.inr ⟨host, rfl, Or.inl hs⟩)
        · rcases tryBodyOf_mem a cfg host extra env s hs with h | h | h
          · exact Or.inr (Or.inr ⟨host, rfl, Or.inr (Or.inl h)⟩)
          · exact Or.inr (Or.inr ⟨host, rfl, Or.inr (Or.inr (Or.inl h))⟩)
          · exact Or.inr (Or.inr ⟨host, rfl, Or.inr (Or.inr (Or.inr (Or.inl h)))⟩)
        · exact Or.inr (Or.inr ⟨host, rfl, Or.inr (Or.inr (Or.inr (Or.inr hs)))⟩)
      · rw [runnerMain_lockFail a cfg extra env host hh (by simpa using hap) hl] at hs
        simp only [List.mem_append, List.mem_singleton] at hs
        rcases hs with (hs | hs) | hs
        · exact Or.inl (applyPhase_mem a env s hs)
        · exact Or.inr (Or.inl (gzSteps_mem a env s hs))
        · exact Or.inr (Or.inr ⟨host, rfl, Or.inl hs⟩)

/-- C8: when compression is requested, the gzip invocation carries the
`--keep` flag (the original local file is kept and a `.gz` sibling
produced), the transferred file name and the remote decompression target
carry the `.gz` suffix, and the final remote execution command always runs
the remote path without the suffix. -/
theorem compression_suffix_usage (a : Args) (cfg : Config)
    (extra : List String) (env : Env) (hcp : a.compress = true) :
    (∀ s ∈ (runnerMain a cfg extra env).1, isGzipStep s = true →
      s = Step.gzipStep ["gzip", "--keep", "--force", (applyPhase a env).2.1]) ∧
    (∀ s ∈ (runnerMain a cfg extra env).1, isScpStep s = true →
      ∃ d, s = Step.scpStep ((applyPhase a env).2.1 ++ ".gz") d) ∧
    (∀ s ∈ (runnerMain a cfg extra env).1, isGunzipStep s = true →
      ∃ u h, s = Step.gunzipStep u h ("gunzip " ++ remoteTestOf a ++ ".gz")) ∧
    (∀ s ∈ (runnerMain a cfg extra env).1, isExecStep s = true →
      ∃ u h, s = Step.execStep u h
        (remoteTestOf a ++ " " ++ joinSpace (remoteArgvOf a extra))) := by
  have hsfx : suffixOf a = ".gz" := by simp [suffixOf, hcp]
  refine ⟨?_, ?_, ?_, ?_⟩
  · intro s hs hkind
    rcases runnerMain_mem_classify a cfg extra env s hs with
      ⟨c, rfl⟩ | rfl | ⟨host, hh, rfl | rfl | rfl | rfl | rfl⟩
    · simp [isGzipStep] at hkind
    · rfl
    · simp [lockStepOf, isGzipStep] at hkind
    · simp [isGzipStep] at hkind
    · simp [isGzipStep] at hkind
    · simp [isGzipStep] at hkind
    · simp [cleanStepOf, isGzipStep] at hkind
  · intro s hs hkind
    rcases runnerMain_mem_classify a cfg extra env s hs with
      ⟨c, rfl⟩ | rfl | ⟨host, hh, rfl | rfl | rfl | rfl | rfl⟩
    · simp [isScpStep] at hkind
    · simp [isScpStep] at hkind
    · simp [lockStepOf, isScpStep] at hkind
    · exact ⟨resolveUser a cfg ++ "@" ++ host ++ ":" ++ a.host_path, by rw [hsfx]⟩
    · simp [isScpStep] at hkind
    · simp [isScpStep] at hkind
    · simp [cleanStepOf, isScpStep] at hkind
  · intro s hs hkind
    rcases runnerMain_mem_classify a cfg extra env s hs with
      ⟨c, rfl⟩ | rfl | ⟨host, hh, rfl | rfl | rfl | rfl | rfl⟩
    · simp [isGunzipStep] at hkind
    · simp [isGunzipStep] at hkind
    · simp [lockStepOf, isGunzipStep] at hkind
    · simp [isGunzipStep] at hkind
    · exact ⟨resolveUser a cfg, host, by rw [hsfx]⟩
    · simp [isGunzipStep] at hkind
    · simp [cleanStepOf, isGunzipStep] at hkind
  · intro s hs hkind
    rcases runnerMain_mem_classify a cfg extra env s hs with
      ⟨c, rfl⟩ | rfl | ⟨host, hh, rfl | rfl | rfl | rfl | rfl⟩
    · simp [isExecStep] at hkind
    · simp [isExecStep] at hkind
    · simp [lockStepOf, isExecStep] at hkind
    · simp [isExecStep] at hkind
    · simp [isExecStep] at hkind
    · exact ⟨resolveUser a cfg, host, rfl⟩
    · simp [cleanStepOf, isExecStep] at hkind

/-- Witness for C8: a compressed session transfers `test.gz`, gunzips
`remote.gz` and executes the unsuffixed remote path. -/
theorem compression_suffix_usage_witness :
    ∃ u h, Step.execStep u h
        (remoteTestOf (Args.mk "job" none true (some "dev1") false "/tmp" none false) ++ " " ++
          joinSpace (remoteArgvOf (Args.mk "job" none true (some "dev1") false "/tmp" none false) [])) ∈
      (runnerMain (Args.mk "job" none true (some "dev1") false "/tmp" none false)
        (Config.mk none none) [] (Env.mk 0 0 0 0 0 0 0)).1 := by
  have hmem : Step.execStep "root" "dev1" "/tmp/job " ∈
      (runnerMain (Args.mk "job" none true (some "dev1") false "/tmp" none false)
        (Config.mk none none) [] (Env.mk 0 0 0 0 0 0 0)).1 := by decide
  obtain ⟨u, h, heq⟩ := (compression_suffix_usage
    (Args.mk "job" none true (some "dev1") false "/tmp" none false)
    (Config.mk none none) [] (Env.mk 0 0 0 0 0 0 0) rfl).2.2.2 _ hmem (by decide)
  exact ⟨u, h, heq ▸ hmem⟩

/-- Lemma `tryBody_exec_captured` specialised to the session's arguments. -/
theorem tryBodyOf_exec_captured (a : Args) (cfg : Config) (host : String)
    (extra : List String) (env : Env)
    (h : hasExecStep (tryBodyOf a cfg host extra env).1 = true) :
    (tryBodyOf a cfg host extra env).2 = some env.execRc := by
  unfold tryBodyOf at *
  exact tryBody_exec_captured a _ host _ _ _ _ env h

/-- Lemma `tryBody_no_exec_captured` specialised to the session's arguments. -/
theorem tryBodyOf_no_exec_captured (a : Args) (cfg : Config) (host : String)
    (extra : List String) (env : Env)
    (h : hasExecStep (tryBodyOf a cfg host extra env).1 = false) :
    (tryBodyOf a cfg host extra env).2 = none := by
  unfold tryBodyOf at *
  exact tryBody_no_exec_captured a _ host _ _ _ _ env h

/-- The preprocessing phase issues no execution step. -/
theorem hasExec_applyPhase (a : Args) (env : Env) :
    hasExecStep (applyPhase a env).1 = false := by
  rcases applyPhase_shape a env with h | ⟨c, h⟩ <;>
    simp [h, hasExecStep, isExecStep]

/-- The gzip phase issues no execution step. -/
theorem hasExec_gzSteps (a : Args) (env : Env) :
    hasExecStep (gzSteps a env) = false := by
  unfold gzSteps
  by_cases hcp : a.compress = true <;> simp [hcp, hasExecStep, isExecStep]

/-- C2 counterexample: the remote execution completed with exit code 42,
the teardown command fails, and the session does not exit with the captured
code — the uncaught teardown error terminates it with status 1 instead. -/
theorem teardown_failure_masks_exit_code :
    hasExecStep (runnerMain (Args.mk "job" none false (some "dev1") false "/tmp" none false)
      (Config.mk none none) [] (Env.mk 0 0 0 0 0 42 1)).1 = true ∧
    (runnerMain (Args.mk "job" none false (some "dev1") false "/tmp" none false)
      (Config.mk none none) [] (Env.mk 0 0 0 0 0 42 1)).2 ≠ MainResult.exited 42 ∧
    (runnerMain (Args.mk "job" none false (some "dev1") false "/tmp" none false)
      (Config.mk none none) [] (Env.mk 0 0 0 0 0 42 1)).2 = MainResult.raised ∧
    exitStatus (runnerMain (Args.mk "job" none false (some "dev1") false "/tmp" none false)
      (Config.mk none none) [] (Env.mk 0 0 0 0 0 42 1)).2 = 1 := by
  refine ⟨by decide, by decide, by decide, by decide⟩

/-- C2 (amended): when the remote execution step ran, the session exits
with the captured exit code if the teardown command succeeds; a teardown
failure raises and terminates the session with the uncaught-error result
(exit status 1) instead of the captured code. -/
theorem exec_code_propagation (a : Args) (cfg : Config) (extra : List String)
    (env : Env)
    (hex : hasExecStep (runnerMain a cfg extra env).1 = true) :
    (env.cleanRc = 0 →
      (runnerMain a cfg extra env).2 = MainResult.exited env.execRc) ∧
    (env.cleanRc ≠ 0 → (runnerMain a cfg extra env).2 = MainResult.raised) := by
  cases hh : resolveHostname a cfg with
  | none =>
    rw [runnerMain_usage a cfg extra env hh] at hex
    simp [hasExecStep] at hex
  | some host =>
    by_cases hap : (applyPhase a env).2.2 = true
    · rw [runnerMain_applyFail a cfg extra env host hh hap] at hex
      rw [hasExec_applyPhase a env] at hex
      exact absurd hex (by simp)
    · by_cases hl : env.lockRc = 0
      · have heq := runnerMain_run a cfg extra env host hh (by simpa using hap) hl
        rw [heq] at hex ⊢
        have hexec_tb : hasExecStep (tryBodyOf a cfg host extra env).1 = true := by
          simp only [hasExecStep, List.any_append, List.any_cons, List.any_nil,
            Bool.or_eq_true] at hex
          rcases hex with ((((hex | hex) | hex) | hex) | hex)
          · rw [← hasExecStep, hasExec_applyPhase a env] at hex; exact absurd hex (by simp)
          · rw [← hasExecStep, hasExec_gzSteps a env] at hex; exact absurd hex (by simp)
          · simp [lockStepOf, isExecStep] at hex
          · simpa [hasExecStep] using hex
          · simp [cleanStepOf, isExecStep] at hex
        rw [tryBodyOf_exec_captured a cfg host extra env hexec_tb]
        constructor
        · intro hclean
          simp [mainRes, hclean]
        · intro hclean
          simp [mainRes, hclean]
      · rw [runnerMain_lockFail a cfg extra env host hh (by simpa using hap) hl] at hex
        simp only [hasExecStep, List.any_append, List.any_cons, List.any_nil,
          Bool.or_eq_true] at hex
        rcases hex with (hex | hex) | hex
        · rw [← hasExecStep, hasExec_applyPhase a env] at hex; exact absurd hex (by simp)
        · rw [← hasExecStep, hasExec_gzSteps a env] at hex; exact absurd hex (by simp)
        · simp [lockStepOf, isExecStep] at hex

/-- Witness for C2 (amended): captured code 7 propagates when teardown
succeeds, and a failing teardown raises. -/
theorem exec_code_propagation_witness :
    (runnerMain (Args.mk "job" none false (some "dev1") false "/tmp" none false)
      (Config.mk none none) [] (Env.mk 0 0 0 0 0 7 0)).2 = MainResult.exited 7 ∧
    (runnerMain (Args.mk "job" none false (some "dev1") false "/tmp" none false)
      (Config.mk none none) [] (Env.mk 0 0 0 0 0 7 5)).2 = MainResult.raised :=
  ⟨(exec_code_propagation (Args.mk "job" none false (some "dev1") false "/tmp" none false)
      (Config.mk none none) [] (Env.mk 0 0 0 0 0 7 0) (by decide)).1 rfl,
   (exec_code_propagation (Args.mk "job" none false (some "dev1") false "/tmp" none false)
      (Config.mk none none) [] (Env.mk 0 0 0 0 0 7 5) (by decide)).2 (by decide)⟩

/-- C4 counterexample: a session whose transfer failed (execution never
reached) terminates with exit status 1, and a session whose remote process
returned 1 also terminates with exit status 1 — the failure code is not
distinct from exit codes a real remote process can return. -/
theorem failure_code_not_distinct :
    hasLockStep (runnerMain (Args.mk "job" none false (some "dev1") false "/tmp" none false)
      (Config.mk none none) [] (Env.mk 0 0 0 5 0 0 0)).1 = true ∧
    hasExecStep (runnerMain (Args.mk "job" none false (some "dev1") false "/tmp" none false)
      (Config.mk none none) [] (Env.mk 0 0 0 5 0 0 0)).1 = false ∧
    exitStatus (runnerMain (Args.mk "job" none false (some "dev1") false "/tmp" none false)
      (Config.mk none none) [] (Env.mk 0 0 0 5 0 0 0)).2 = 1 ∧
    hasExecStep (runnerMain (Args.mk "job" none false (some "dev1") false "/tmp" none false)
      (Config.mk none none) [] (Env.mk 0 0 0 0 0 1 0)).1 = true ∧
    (runnerMain (Args.mk "job" none false (some "dev1") false "/tmp" none false)
      (Config.mk none none) [] (Env.mk 0 0 0 0 0 1 0)).2 = MainResult.exited 1 ∧
    exitStatus (runnerMain (Args.mk "job" none false (some "dev1") false "/tmp" none false)
      (Config.mk none none) [] (Env.mk 0 0 0 0 0 1 0)).2 = 1 := by
  refine ⟨by decide, by decide, by decide, by decide, by decide, by decide⟩

/-- C4 (amended): when the lock was acquired but execution was never
reached, the session terminates with the fixed uncaught-error exit status 1
(which is not distinct from possible remote exit codes); when execution was
reached and the teardown succeeded, the exit status equals the captured
remote exit status. -/
theorem exit_status_behaviour (a : Args) (cfg : Config) (extra : List String)
    (env : Env)
    (hlock : hasLockStep (runnerMain a cfg extra env).1 = true) :
    (hasExecStep (runnerMain a cfg extra env).1 = false →
      (runnerMain a cfg extra env).2 = MainResult.raised ∧
      exitStatus (runnerMain a cfg extra env).2 = 1) ∧
    (hasExecStep (runnerMain a cfg extra env).1 = true → env.cleanRc = 0 →
      (runnerMain a cfg extra env).2 = MainResult.exited env.execRc ∧
      exitStatus (runnerMain a cfg extra env).2 = env.execRc) := by
  cases hh : resolveHostname a cfg with
  | none =>
    rw [runnerMain_usage a cfg extra env hh] at hlock
    simp [hasLockStep] at hlock
  | some host =>
    by_cases hap : (applyPhase a env).2.2 = true
    · rw [runnerMain_applyFail a cfg extra env host hh hap] at hlock
      exfalso
      simp only [hasLockStep, List.any_eq_true] at hlock
      obtain ⟨s, hs, hl⟩ := hlock
      obtain ⟨c, rfl⟩ := applyPhase_mem a env s hs
      simp [isLockStep] at hl
    · by_cases hl : env.lockRc = 0
      · have heq := runnerMain_run a cfg extra env host hh (by simpa using hap) hl
        rw [heq]
        constructor
        · intro hnoexec
          dsimp only at hnoexec
          have hexec_tb : hasExecStep (tryBodyOf a cfg host extra env).1 = false := by
            simp only [hasExecStep, List.any_append, Bool.or_eq_false_iff] at hnoexec
            exact hnoexec.1.2
          rw [tryBodyOf_no_exec_captured a cfg host extra env hexec_tb]
          by_cases hclean : env.cleanRc = 0 <;>
            simp [mainRes, hclean, exitStatus]
        · intro hexec hclean
          dsimp only at hexec
          have hexec_tb : hasExecStep (tryBodyOf a cfg host extra env).1 = true := by
            simp only [hasExecStep, List.any_append, List.any_cons, List.any_nil,
              Bool.or_eq_true] at hexec
            rcases hexec with ((((hexec | hexec) | hexec) | hexec) | hexec)
            · rw [← hasExecStep, hasExec_applyPhase a env] at hexec
              exact absurd hexec (by simp)
            · rw [← hasExecStep, hasExec_gzSteps a env] at hexec
              exact absurd hexec (by simp)
            · simp [lockStepOf, isExecStep] at hexec
            · simpa [hasExecStep] using hexec
            · simp [cleanStepOf, isExecStep] at hexec
          rw [tryBodyOf_exec_captured a cfg host extra env hexec_tb]
          simp [mainRes, hclean, exitStatus]
      · have heq := runnerMain_lockFail a cfg extra env host hh (by simpa using hap) hl
        rw [heq]
        have hnoexec : hasExecStep ((applyPhase a env).1 ++ gzSteps a env ++
            [lockStepOf a cfg host]) = false := by
          simp only [hasExecStep, List.any_append, List.any_cons, List.any_nil,
            Bool.or_eq_false_iff]
          refine ⟨⟨?_, ?_⟩, ?_⟩
          · exact hasExec_applyPhase a env
          · exact hasExec_gzSteps a env
          · simp [lockStepOf, isExecStep]
        constructor
        · intro
          exact ⟨rfl, rfl⟩
        · intro hexec
          dsimp only at hexec
          rw [hnoexec] at hexec
          exact absurd hexec (by simp)

/-- Witness for C4 (amended): a failed remote decompression after lock
acquisition exits with status 1, and a successful run propagates the
captured status 3. -/
theorem exit_status_behaviour_witness :
    ((runnerMain (Args.mk "job" none true (some "dev1") false "/tmp" none false)
      (Config.mk none none) [] (Env.mk 0 0 0 0 9 0 0)).2 = MainResult.raised ∧
     exitStatus (runnerMain (Args.mk "job" none true (some "dev1") false "/tmp" none false)
      (Config.mk none none) [] (Env.mk 0 0 0 0 9 0 0)).2 = 1) ∧
    ((runnerMain (Args.mk "job" none false (some "dev1") false "/tmp" none false)
      (Config.mk none none) [] (Env.mk 0 0 0 0 0 3 0)).2 = MainResult.exited 3 ∧
     exitStatus (runnerMain (Args.mk "job" none false (some "dev1") false "/tmp" none false)
      (Config.mk none none) [] (Env.mk 0 0 0 0 0 3 0)).2 = 3) :=
  ⟨(exit_status_behaviour (Args.mk "job" none true (some "dev1") false "/tmp" none false)
      (Config.mk none none) [] (Env.mk 0 0 0 0 9 0 0) (by decide)).1 (by decide),
   (exit_status_behaviour (Args.mk "job" none false (some "dev1") false "/tmp" none false)
      (Config.mk none none) [] (Env.mk 0 0 0 0 0 3 0) (by decide)).2 (by decide) rfl⟩
